import Mathlib

/-!
# Verification of the CodebaseToPrompt selection-state & tree engine

Shallow embedding of the selection-state and tree-materialization engine of
the CodebaseToPrompt repository (static/js/app.js, static/js/main.js,
static/js/store.js and the actions/helpers/viewer modules), together with
proofs settling the frozen claims about it.

Modelling conventions:
* A JS tree node (plain object with `isDir`, `name`, `path`, `children`,
  `size`, `isTextFile`) is the tagged union `Node`.
* A JS `Set` of strings is a duplicate-free `List String` in insertion
  order; `Set.add` appends when absent (`spAdd`), `Set.delete` removes the
  occurrence (`spDel`), `new Set(array)` is `jsSetOfList`.
* A JS plain object used as a string map (`fileContents`) is an
  association list `List (String × String)`; `obj[k]` is `List.lookup`.
* `Math.ceil(n / 4)` on a natural number of characters is `(n + 3) / 4`.
* JS string length is `String.length` (the unit of measure is abstract
  and irrelevant to the claims).
-/

/-- Tree node, from the plain objects built in `buildFileTree`
(app.js lines 374-420, main.js lines 184-226): a file carries
`size` and `isTextFile`, a directory carries `children`. -/
inductive Node where
  | file (name path : String) (size : Nat) (isTextFile : Bool)
  | dir (name path : String) (children : List Node)

/-- The `path` property of a node. -/
def Node.path : Node → String
  | .file _ p _ _ => p
  | .dir _ p _ => p

/-- The `name` property of a node. -/
def Node.name : Node → String
  | .file n _ _ _ => n
  | .dir n _ _ => n

/-- The `isDir` property of a node. -/
def Node.isDir : Node → Bool
  | .file _ _ _ _ => false
  | .dir _ _ _ => true

/-- `Set.add` on the list model of a JS string set: JS `Set.add` keeps
insertion order and never stores a duplicate. -/
def spAdd (l : List String) (p : String) : List String :=
  if p ∈ l then l else l ++ [p]

/-- `Set.delete` on the list model of a JS string set. -/
def spDel (l : List String) (p : String) : List String :=
  l.filter (fun q => q ≠ p)

/-- `new Set(array)`: inserts the elements in order, dropping later
duplicates. -/
def jsSetOfList (l : List String) : List String :=
  l.foldl spAdd []

/-- `actions.bulkSelectPaths(pathsToSelect, pathsToDeselect)`
(app.js lines 96-103, actions.js lines 465-472): first adds every path of
`toSelect` to `selectedPaths`, then deletes every path of `toDeselect`. -/
def bulkSelectPaths (sel toSelect toDeselect : List String) : List String :=
  toDeselect.foldl spDel (toSelect.foldl spAdd sel)

mutual
/-- The `{totalFiles, selectedFiles}` counting recursion transcribed from
`countFiles` (app.js lines 791-807) and used identically by
`computeSelectionStates`' per-node recursion (app.js lines 452-470): a
text file counts 1 toward the total and, when its path is selected,
1 toward the selected count; a directory sums over its children. -/
def countFiles (sel : List String) : Node → Nat × Nat
  | Node.file _ p _ t =>
      if t then (1, if p ∈ sel then 1 else 0) else (0, 0)
  | Node.dir _ _ cs => countFilesList sel cs

/-- Sum of `countFiles` over a child list, as the `forEach` accumulation
in the source. -/
def countFilesList (sel : List String) : List Node → Nat × Nat
  | [] => (0, 0)
  | c :: cs =>
      let r := countFiles sel c
      let rs := countFilesList sel cs
      (r.1 + rs.1, r.2 + rs.2)
end

/-- The selection-map entry `computeSelectionStates` (app.js lines
446-485) assigns to a node: a file is checked iff it is a text file whose
path is selected and never indeterminate; a directory is classified from
its subtree's `(total, selected)` counts. -/
def computeSelectionState (sel : List String) (n : Node) : Bool × Bool :=
  match n with
  | Node.file _ p _ t =>
      if t ∧ p ∈ sel then (true, false) else (false, false)
  | Node.dir _ _ cs =>
      let r := countFilesList sel cs
      if 0 < r.1 ∧ r.2 = r.1 then (true, false)
      else if 0 < r.2 ∧ r.2 < r.1 then (false, true)
      else (false, false)

mutual
/-- The `collectAll` gatherer inside `toggleNodeSelection` (app.js lines
597-612): the paths of all text-file nodes in the subtree, in preorder. -/
def collectEligible : Node → List String
  | Node.file _ p _ t => if t then [p] else []
  | Node.dir _ _ cs => collectEligibleList cs

/-- `collectAll` over a child list. -/
def collectEligibleList : List Node → List String
  | [] => []
  | c :: cs => collectEligible c ++ collectEligibleList cs
end

/-- `toggleNodeSelection` (app.js lines 566-627), reduced to its effect on
`selectedPaths` (the single `bulkSelectPaths` dispatch it ends with): for
a directory, if every text file beneath it is selected (and there is at
least one) everything beneath it is deselected, otherwise everything
beneath it is selected; for a file, its own selection is flipped. -/
def toggleNodeSelection (sel : List String) (node : Node) : List String :=
  match node with
  | Node.dir _ _ _ =>
      let tc := countFiles sel node
      if 0 < tc.1 ∧ tc.2 = tc.1 then
        bulkSelectPaths sel [] (collectEligible node)
      else
        bulkSelectPaths sel (collectEligible node) []
  | Node.file _ p _ _ =>
      if p ∈ sel then bulkSelectPaths sel [] [p]
      else bulkSelectPaths sel [p] []

/-- Per-element sanity: membership after `spAdd`. -/
theorem mem_spAdd (l : List String) (p q : String) :
    q ∈ spAdd l p ↔ q ∈ l ∨ q = p := by
  unfold spAdd
  by_cases h : p ∈ l
  · simp only [if_pos h]
    constructor
    · exact fun hq => Or.inl hq
    · rintro (hq | rfl)
      · exact hq
      · exact h
  · simp [if_neg h]

/-- Membership after `spDel`. -/
theorem mem_spDel (l : List String) (p q : String) :
    q ∈ spDel l p ↔ q ∈ l ∧ q ≠ p := by
  unfold spDel
  simp

/-- Membership after adding a whole batch (the first loop of
`bulkSelectPaths`). -/
theorem mem_foldl_spAdd (ts : List String) :
    ∀ (sel : List String) (q : String),
      q ∈ ts.foldl spAdd sel ↔ q ∈ sel ∨ q ∈ ts := by
  induction ts with
  | nil => intro sel q; simp
  | cons t ts ih =>
      intro sel q
      simp only [List.foldl_cons, ih, mem_spAdd, List.mem_cons]
      tauto

/-- Membership after deleting a whole batch (the second loop of
`bulkSelectPaths`). -/
theorem mem_foldl_spDel (ds : List String) :
    ∀ (sel : List String) (q : String),
      q ∈ ds.foldl spDel sel ↔ q ∈ sel ∧ q ∉ ds := by
  induction ds with
  | nil => intro sel q; simp
  | cons d ds ih =>
      intro sel q
      simp only [List.foldl_cons, ih, mem_spDel, List.mem_cons]
      tauto

/-- Membership in the result of `bulkSelectPaths`. -/
theorem mem_bulkSelectPaths (sel ts ds : List String) (q : String) :
    q ∈ bulkSelectPaths sel ts ds ↔ (q ∈ sel ∨ q ∈ ts) ∧ q ∉ ds := by
  unfold bulkSelectPaths
  rw [mem_foldl_spDel, mem_foldl_spAdd]

/-- Structural induction over the nested `Node` tree: to prove a property
of every node it suffices to prove it for files and for directories
assuming it for every child. -/
theorem node_strong_ind (P : Node → Prop)
    (hfile : ∀ nm p sz t, P (Node.file nm p sz t))
    (hdir : ∀ nm p cs, (∀ c ∈ cs, P c) → P (Node.dir nm p cs)) :
    ∀ n, P n
  | Node.file nm p sz t => hfile nm p sz t
  | Node.dir nm p cs =>
      hdir nm p cs (fun c hc =>
        have : sizeOf c < sizeOf (Node.dir nm p cs) := by
          have hlt := List.sizeOf_lt_of_mem hc
          simp only [Node.dir.sizeOf_spec]
          omega
        node_strong_ind P hfile hdir c)
termination_by n => sizeOf n

/-- The `totalFiles` count over a child list is the number of gathered
eligible paths, granted that per child. -/
theorem countFilesList_fst (sel : List String) (l : List Node)
    (ih : ∀ c ∈ l, (countFiles sel c).1 = (collectEligible c).length) :
    (countFilesList sel l).1 = (collectEligibleList l).length := by
  induction l with
  | nil => simp [countFilesList, collectEligibleList]
  | cons c cs ihl =>
      simp only [countFilesList, collectEligibleList, List.length_append]
      rw [ih c (by simp), ihl (fun d hd => ih d (by simp [hd]))]

/-- The `totalFiles` count of a subtree is the number of paths
`collectAll` gathers there. -/
theorem countFiles_fst (sel : List String) (n : Node) :
    (countFiles sel n).1 = (collectEligible n).length := by
  refine node_strong_ind
    (fun m => (countFiles sel m).1 = (collectEligible m).length) ?_ ?_ n
  · intro nm p sz t
    cases t <;> simp [countFiles, collectEligible]
  · intro nm p cs ih
    exact countFilesList_fst sel cs ih

/-- The `selectedFiles` count over a child list is the number of gathered
eligible paths that are selected, granted that per child. -/
theorem countFilesList_snd (sel : List String) (l : List Node)
    (ih : ∀ c ∈ l, (countFiles sel c).2 =
      ((collectEligible c).filter (fun r => decide (r ∈ sel))).length) :
    (countFilesList sel l).2 =
      ((collectEligibleList l).filter (fun r => decide (r ∈ sel))).length := by
  induction l with
  | nil => simp [countFilesList, collectEligibleList]
  | cons c cs ihl =>
      simp only [countFilesList, collectEligibleList, List.filter_append,
        List.length_append]
      rw [ih c (by simp), ihl (fun d hd => ih d (by simp [hd]))]

/-- The `selectedFiles` count of a subtree is the number of gathered
eligible paths that are in `selectedPaths`. -/
theorem countFiles_snd (sel : List String) (n : Node) :
    (countFiles sel n).2 =
      ((collectEligible n).filter (fun r => decide (r ∈ sel))).length := by
  refine node_strong_ind
    (fun m => (countFiles sel m).2 =
      ((collectEligible m).filter (fun r => decide (r ∈ sel))).length) ?_ ?_ n
  · intro nm p sz t
    cases t <;> by_cases hp : p ∈ sel <;>
      simp [countFiles, collectEligible, hp]
  · intro nm p cs ih
    exact countFilesList_snd sel cs ih

/-- A filtered list keeps its full length exactly when every element
passes the filter. -/
theorem length_filter_eq_iff {α : Type} (p : α → Bool) (l : List α) :
    (l.filter p).length = l.length ↔ ∀ a ∈ l, p a := by
  constructor
  · intro h
    exact List.filter_eq_self.mp ((List.filter_sublist l).eq_of_length h)
  · intro h
    rw [List.filter_eq_self.mpr h]

/-- `selectedFiles = totalFiles` says every eligible path of the subtree
is selected. -/
theorem countFiles_snd_eq_fst_iff (sel : List String) (n : Node) :
    (countFiles sel n).2 = (countFiles sel n).1 ↔
      ∀ r ∈ collectEligible n, r ∈ sel := by
  rw [countFiles_fst, countFiles_snd, length_filter_eq_iff]
  simp

/-- `selectedFiles = 0` says no eligible path of the subtree is
selected. -/
theorem countFiles_snd_eq_zero_iff (sel : List String) (n : Node) :
    (countFiles sel n).2 = 0 ↔ ∀ r ∈ collectEligible n, r ∉ sel := by
  rw [countFiles_snd, List.length_eq_zero, List.filter_eq_nil_iff]
  simp

/-- `totalFiles = 0` says `collectAll` gathers nothing in the subtree. -/
theorem countFiles_fst_eq_zero_iff (sel : List String) (n : Node) :
    (countFiles sel n).1 = 0 ↔ collectEligible n = [] := by
  rw [countFiles_fst, List.length_eq_zero]

/-- **C1 (amended).** For every tree node and every selection set, the
state computed by `computeSelectionStates`: a File node is checked iff
`isTextFile = true` and its path is in `selectedPaths` (a non-text file
is never checked even when its path is in the set), and never
indeterminate; a Directory node, with `total` the number of descendant
text-file nodes and `selected` the number of those whose path is
selected, is checked iff `total > 0` and `selected = total`,
indeterminate iff `0 < selected < total`, and otherwise neither. The
function is pure in the subtree and the selection set. -/
theorem computeSelectionState_characterization (sel : List String) (n : Node) :
    computeSelectionState sel n =
      match n with
      | Node.file _ p _ t => (t && decide (p ∈ sel), false)
      | Node.dir _ _ _ =>
          (decide (0 < (collectEligible n).length ∧
            ((collectEligible n).filter (fun r => decide (r ∈ sel))).length =
              (collectEligible n).length),
           decide (0 <
            ((collectEligible n).filter (fun r => decide (r ∈ sel))).length ∧
            ((collectEligible n).filter (fun r => decide (r ∈ sel))).length <
              (collectEligible n).length)) := by
  cases n with
  | file nm p sz t =>
      cases t <;> by_cases hp : p ∈ sel <;>
        simp [computeSelectionState, hp]
  | dir nm p cs =>
      have hfst := countFiles_fst sel (Node.dir nm p cs)
      have hsnd := countFiles_snd sel (Node.dir nm p cs)
      simp only [countFiles] at hfst hsnd
      simp only [computeSelectionState]
      rw [hfst, hsnd]
      have hle : ((collectEligible (Node.dir nm p cs)).filter
          (fun r => decide (r ∈ sel))).length ≤
            (collectEligible (Node.dir nm p cs)).length :=
        List.length_filter_le _ _
      simp only [collectEligible] at hle ⊢
      split_ifs with h1 h2
      · simp only [Prod.mk.injEq, decide_eq_true_eq, true_iff]
        constructor
        · exact (decide_eq_true h1).symm
        · have : ¬(0 < ((collectEligibleList cs).filter
              (fun r => decide (r ∈ sel))).length ∧
              ((collectEligibleList cs).filter
                (fun r => decide (r ∈ sel))).length <
                (collectEligibleList cs).length) := by omega
          exact (decide_eq_false this).symm
      · simp only [Prod.mk.injEq]
        constructor
        · exact (decide_eq_false h1).symm
        · exact (decide_eq_true h2).symm
      · simp only [Prod.mk.injEq]
        constructor
        · exact (decide_eq_false h1).symm
        · exact (decide_eq_false h2).symm

/-- **C1 (counterexample).** A File node with `isTextFile = false` whose
path is in `selectedPaths` is NOT checked, although the claim ("checked
iff its path is in selectedPaths") says it would be. -/
theorem computeSelectionState_nontext_selected_file :
    "r/a" ∈ (["r/a"] : List String) ∧
      (computeSelectionState ["r/a"] (Node.file "a" "r/a" 1 false)).1 = false := by
  constructor
  · simp
  · rfl

/-- **C2 (amended).** Applying `toggleNodeSelection` twice to a node
returns the selection to its original value (as a set of paths) whenever
the node starts with none of its eligible descendant files selected or
with all of them selected. (From an indeterminate start — a non-empty
proper subset — the first toggle selects everything and the second
deselects everything, so the original partial state is NOT restored; see
the counterexample.) -/
theorem toggleNodeSelection_twice (sel : List String) (node : Node) (p : String)
    (h : (countFiles sel node).2 = 0 ∨
      (countFiles sel node).2 = (countFiles sel node).1) :
    p ∈ toggleNodeSelection (toggleNodeSelection sel node) node ↔ p ∈ sel := by
  cases node with
  | file nm q sz t =>
      by_cases hq : q ∈ sel
      · have h1 : toggleNodeSelection sel (Node.file nm q sz t) =
            bulkSelectPaths sel [] [q] := by
          simp [toggleNodeSelection, hq]
        have hq1 : q ∉ bulkSelectPaths sel [] [q] := by
          rw [mem_bulkSelectPaths]; simp
        rw [h1]
        have h2 : toggleNodeSelection (bulkSelectPaths sel [] [q])
            (Node.file nm q sz t) =
            bulkSelectPaths (bulkSelectPaths sel [] [q]) [q] [] := by
          simp [toggleNodeSelection, hq1]
        rw [h2, mem_bulkSelectPaths, mem_bulkSelectPaths]
        by_cases hpq : p = q
        · subst hpq; simp [hq]
        · simp [hpq]
      · have h1 : toggleNodeSelection sel (Node.file nm q sz t) =
            bulkSelectPaths sel [q] [] := by
          simp [toggleNodeSelection, hq]
        have hq1 : q ∈ bulkSelectPaths sel [q] [] := by
          rw [mem_bulkSelectPaths]; simp
        rw [h1]
        have h2 : toggleNodeSelection (bulkSelectPaths sel [q] [])
            (Node.file nm q sz t) =
            bulkSelectPaths (bulkSelectPaths sel [q] []) [] [q] := by
          simp [toggleNodeSelection, hq1]
        rw [h2, mem_bulkSelectPaths, mem_bulkSelectPaths]
        by_cases hpq : p = q
        · subst hpq; simp [hq]
        · simp [hpq]
  | dir nm q cs =>
      by_cases ht : 0 < (countFiles sel (Node.dir nm q cs)).1
      · rcases h with hs0 | hst
        · -- none selected: toggle selects all, second toggle deselects all
          have hnone : ∀ r ∈ collectEligible (Node.dir nm q cs), r ∉ sel :=
            (countFiles_snd_eq_zero_iff sel _).mp hs0
          have hne : ¬(0 < (countFiles sel (Node.dir nm q cs)).1 ∧
              (countFiles sel (Node.dir nm q cs)).2 =
                (countFiles sel (Node.dir nm q cs)).1) := by
            intro hc
            omega
          have e1 : toggleNodeSelection sel (Node.dir nm q cs) =
              bulkSelectPaths sel (collectEligible (Node.dir nm q cs)) [] := by
            simp only [toggleNodeSelection]
            rw [if_neg hne]
          rw [e1]
          have hall : ∀ r ∈ collectEligible (Node.dir nm q cs),
              r ∈ bulkSelectPaths sel (collectEligible (Node.dir nm q cs)) [] := by
            intro r hr
            rw [mem_bulkSelectPaths]
            simp [hr]
          have hfull : (countFiles
              (bulkSelectPaths sel (collectEligible (Node.dir nm q cs)) [])
              (Node.dir nm q cs)).2 =
              (countFiles
                (bulkSelectPaths sel (collectEligible (Node.dir nm q cs)) [])
                (Node.dir nm q cs)).1 :=
            (countFiles_snd_eq_fst_iff _ _).mpr hall
          have ht' : 0 < (countFiles
              (bulkSelectPaths sel (collectEligible (Node.dir nm q cs)) [])
              (Node.dir nm q cs)).1 := by
            rw [countFiles_fst] at ht ⊢
            exact ht
          have e2 : toggleNodeSelection
              (bulkSelectPaths sel (collectEligible (Node.dir nm q cs)) [])
              (Node.dir nm q cs) =
              bulkSelectPaths
                (bulkSelectPaths sel (collectEligible (Node.dir nm q cs)) [])
                [] (collectEligible (Node.dir nm q cs)) := by
            simp only [toggleNodeSelection]
            rw [if_pos ⟨ht', hfull⟩]
          rw [e2, mem_bulkSelectPaths, mem_bulkSelectPaths]
          by_cases hpE : p ∈ collectEligible (Node.dir nm q cs)
          · simp only [List.not_mem_nil, or_false, not_false_iff, and_true]
            constructor
            · intro hc
              exact absurd hpE hc.2
            · intro hp
              exact absurd hp (hnone p hpE)
          · simp [hpE]
        · -- all selected: toggle deselects all, second toggle selects all
          have hall : ∀ r ∈ collectEligible (Node.dir nm q cs), r ∈ sel :=
            (countFiles_snd_eq_fst_iff sel _).mp hst
          have e1 : toggleNodeSelection sel (Node.dir nm q cs) =
              bulkSelectPaths sel [] (collectEligible (Node.dir nm q cs)) := by
            simp only [toggleNodeSelection]
            rw [if_pos ⟨ht, hst⟩]
          rw [e1]
          have hgone : ∀ r ∈ collectEligible (Node.dir nm q cs),
              r ∉ bulkSelectPaths sel [] (collectEligible (Node.dir nm q cs)) := by
            intro r hr hc
            rw [mem_bulkSelectPaths] at hc
            exact hc.2 hr
          have hzero : (countFiles
              (bulkSelectPaths sel [] (collectEligible (Node.dir nm q cs)))
              (Node.dir nm q cs)).2 = 0 :=
            (countFiles_snd_eq_zero_iff _ _).mpr hgone
          have ht' : 0 < (countFiles
              (bulkSelectPaths sel [] (collectEligible (Node.dir nm q cs)))
              (Node.dir nm q cs)).1 := by
            rw [countFiles_fst] at ht ⊢
            exact ht
          have e2 : toggleNodeSelection
              (bulkSelectPaths sel [] (collectEligible (Node.dir nm q cs)))
              (Node.dir nm q cs) =
              bulkSelectPaths
                (bulkSelectPaths sel [] (collectEligible (Node.dir nm q cs)))
                (collectEligible (Node.dir nm q cs)) [] := by
            simp only [toggleNodeSelection]
            rw [if_neg]
            intro hc
            omega
          rw [e2, mem_bulkSelectPaths, mem_bulkSelectPaths]
          by_cases hpE : p ∈ collectEligible (Node.dir nm q cs)
          · simp [hpE, hall p hpE]
          · simp [hpE]
      · -- no eligible descendants at all: both toggles are no-ops
        have hE : collectEligible (Node.dir nm q cs) = [] :=
          (countFiles_fst_eq_zero_iff sel _).mp (by omega)
        have e1 : toggleNodeSelection sel (Node.dir nm q cs) = sel := by
          simp only [toggleNodeSelection]
          rw [if_neg (by omega), hE]
          rfl
        rw [e1, e1]

/-- **C2 (witness).** The double-toggle theorem at a concrete directory
with one eligible file, starting from the empty selection. -/
theorem toggleNodeSelection_twice_witness :
    ("r/a" ∈ toggleNodeSelection
        (toggleNodeSelection [] (Node.dir "r" "r" [Node.file "a" "r/a" 1 true]))
        (Node.dir "r" "r" [Node.file "a" "r/a" 1 true])) ↔
      "r/a" ∈ ([] : List String) :=
  toggleNodeSelection_twice [] (Node.dir "r" "r" [Node.file "a" "r/a" 1 true])
    "r/a" (Or.inl (by decide))

/-- **C2 (counterexample).** From an indeterminate start — `r/a` selected
but `r/b` not, both eligible files under `r` — toggling the directory
twice does NOT restore the subtree's selection: `r/a` was selected
before and is not selected after. -/
theorem toggleNodeSelection_twice_not_restored :
    "r/a" ∈ (["r/a"] : List String) ∧
      "r/a" ∈ collectEligible
        (Node.dir "r" "r"
          [Node.file "a" "r/a" 1 true, Node.file "b" "r/b" 1 true]) ∧
      "r/a" ∉ toggleNodeSelection
        (toggleNodeSelection ["r/a"]
          (Node.dir "r" "r"
            [Node.file "a" "r/a" 1 true, Node.file "b" "r/b" 1 true]))
        (Node.dir "r" "r"
          [Node.file "a" "r/a" 1 true, Node.file "b" "r/b" 1 true]) := by
  decide

/-- **C3 (confirmed).** `bulkSelectPaths(toSelect, toDeselect)` leaves a
path in both lists NOT selected (deselect wins, because the deletion loop
runs after the addition loop), selects every path only in `toSelect`,
deselects every path only in `toDeselect`, and leaves all other paths as
they were. -/
theorem bulkSelectPaths_deselect_wins (sel ts ds : List String) (p : String) :
    (p ∈ ds → p ∉ bulkSelectPaths sel ts ds) ∧
    (p ∈ ts → p ∉ ds → p ∈ bulkSelectPaths sel ts ds) ∧
    (p ∉ ts → p ∉ ds → (p ∈ bulkSelectPaths sel ts ds ↔ p ∈ sel)) := by
  refine ⟨?_, ?_, ?_⟩ <;> intro h1 <;>
    first
      | (intro h2; rw [mem_bulkSelectPaths]; tauto)
      | (rw [mem_bulkSelectPaths]; tauto)

/-- **C3 (witness).** The overlap rule at concrete lists: `"b"` appears in
both `toSelect` and `toDeselect` and ends NOT selected. -/
theorem bulkSelectPaths_deselect_wins_witness :
    "b" ∉ bulkSelectPaths [] ["a", "b"] ["b", "c"] :=
  (bulkSelectPaths_deselect_wins [] ["a", "b"] ["b", "c"] "b").1 (by decide)

mutual
/-- `findNode(path, node)` (app.js lines 629-639): returns the node whose
`path` matches, searching the node itself and then its children in
order. -/
def findNode (path : String) : Node → Option Node
  | Node.file nm p sz t =>
      if p = path then some (Node.file nm p sz t) else none
  | Node.dir nm p cs =>
      if p = path then some (Node.dir nm p cs) else findNodeList path cs

/-- The `for (const child of node.children)` search loop of `findNode`:
first hit wins. -/
def findNodeList (path : String) : List Node → Option Node
  | [] => none
  | c :: cs =>
      match findNode path c with
      | some m => some m
      | none => findNodeList path cs
end

/-- The spec-side eligibility test "the path still resolves to an
eligible (`isTextFile = true`) File node in the current tree", written
with the source's `findNode`; used to compare the claims' stale-path
wording against what the code actually computes. -/
def resolvesToEligibleFile (root : Option Node) (p : String) : Bool :=
  match root with
  | none => false
  | some r =>
      match findNode p r with
      | some (Node.file _ _ _ t) => t
      | _ => false

/-- The `stats` record of the store state. -/
structure Stats where
  selectedCount : Nat
  totalTokens : Nat
deriving DecidableEq

/-- The store state (app.js lines 9-18, store.js lines 14-23):
`root`, `selectedPaths`, `fileContents`, `expandedNodes`, `stats`. -/
structure AppState where
  root : Option Node
  selectedPaths : List String
  fileContents : List (String × String)
  expandedNodes : List String
  stats : Stats

/-- `calculateTokens(fileContents, selectedPaths)` (app.js lines
825-835, helpers.js lines 430-440): sums `content.length` over selected
paths whose content is truthy (present and non-empty), then estimates
one token per four characters with `Math.ceil(totalChars / 4)`,
i.e. `(totalChars + 3) / 4` on naturals. -/
def calculateTokens (fileContents : List (String × String))
    (selectedPaths : List String) : Nat :=
  let totalChars := selectedPaths.foldl
    (fun acc p =>
      match fileContents.lookup p with
      | some c => if c ≠ "" then acc + c.length else acc
      | none => acc) 0
  (totalChars + 3) / 4

/-- `actions.updateStats` (app.js lines 135-138, actions.js lines
506-509): `selectedCount := selectedPaths.size`,
`totalTokens := calculateTokens(fileContents, selectedPaths)`. -/
def updateStats (s : AppState) : AppState :=
  { s with stats :=
      { selectedCount := s.selectedPaths.length,
        totalTokens := calculateTokens s.fileContents s.selectedPaths } }

/-- `actions.toggleSelected(path, selected)` (app.js lines 107-113,
actions.js lines 474-480): adds or removes the path from
`selectedPaths`, with no check of any kind on the path. -/
def toggleSelected (path : String) (selected : Bool) (s : AppState) :
    AppState :=
  if selected then { s with selectedPaths := spAdd s.selectedPaths path }
  else { s with selectedPaths := spDel s.selectedPaths path }

/-- The character accumulation of `calculateTokens` equals the sum of the
resolved contents' lengths, missing or empty content contributing zero. -/
theorem calculateTokens_chars (fc : List (String × String)) :
    ∀ (sel : List String) (acc : Nat),
      sel.foldl
        (fun acc p =>
          match fc.lookup p with
          | some c => if c ≠ "" then acc + c.length else acc
          | none => acc) acc =
      acc + (sel.map (fun p => ((fc.lookup p).getD "").length)).sum := by
  intro sel
  induction sel with
  | nil => intro acc; simp
  | cons p sel ih =>
      intro acc
      simp only [List.foldl_cons, List.map_cons, List.sum_cons, ih]
      cases hp : fc.lookup p with
      | none => simp [hp]
      | some c =>
          by_cases hc : c = ""
          · subst hc; simp [hp]
          · simp only [hp, if_pos hc, Option.getD_some]
            exact Nat.add_assoc acc c.length _

/-- **C4 (amended).** `updateStats` sets `stats.selectedCount` to the
total number of stored selected paths — including paths that no longer
resolve to an eligible File in the current tree, since the code takes
`selectedPaths.size` with no stale-path filtering — and sets
`stats.totalTokens` to `ceil(totalSelectedChars / 4)`, where
`totalSelectedChars` sums the lengths of the resolved contents, missing
or unresolved content contributing zero rather than erroring. -/
theorem updateStats_characterization (s : AppState) :
    (updateStats s).stats.selectedCount = s.selectedPaths.length ∧
    (updateStats s).stats.totalTokens =
      ((s.selectedPaths.map
        (fun p => ((s.fileContents.lookup p).getD "").length)).sum + 3) / 4 ∧
    (s.selectedPaths.map
        (fun p => ((s.fileContents.lookup p).getD "").length)).sum ≤
      4 * (updateStats s).stats.totalTokens ∧
    4 * (updateStats s).stats.totalTokens <
      (s.selectedPaths.map
        (fun p => ((s.fileContents.lookup p).getD "").length)).sum + 4 := by
  have hchars :
      calculateTokens s.fileContents s.selectedPaths =
        ((s.selectedPaths.map
          (fun p => ((s.fileContents.lookup p).getD "").length)).sum + 3) / 4 := by
    unfold calculateTokens
    rw [calculateTokens_chars]
    simp
  refine ⟨rfl, ?_, ?_, ?_⟩
  · exact hchars
  · show (s.selectedPaths.map
        (fun p => ((s.fileContents.lookup p).getD "").length)).sum ≤
      4 * calculateTokens s.fileContents s.selectedPaths
    rw [hchars]
    omega
  · show 4 * calculateTokens s.fileContents s.selectedPaths <
      (s.selectedPaths.map
        (fun p => ((s.fileContents.lookup p).getD "").length)).sum + 4
    rw [hchars]
    omega

/-- A state whose `selectedPaths` holds a path that resolves to nothing
in the current tree. -/
def staleState : AppState :=
  { root := some (Node.dir "r" "r" [Node.file "a" "r/a" 1 true]),
    selectedPaths := ["ghost"],
    fileContents := [],
    expandedNodes := [],
    stats := ⟨0, 0⟩ }

/-- **C4 (counterexample).** With a single stored path `"ghost"` that
resolves to no node of the tree, `updateStats` reports
`selectedCount = 1`, while the claim requires stale paths to be excluded
(which would give 0). -/
theorem updateStats_counts_stale_path :
    (updateStats staleState).stats.selectedCount = 1 ∧
    resolvesToEligibleFile staleState.root "ghost" = false ∧
    (staleState.selectedPaths.filter
      (fun p => resolvesToEligibleFile staleState.root p)).length = 0 := by
  decide

/-- **C6 (amended).** `toggleSelected(p, true)` adds `p` to
`selectedPaths` unconditionally — it performs no eligibility or
existence check, so a nonexistent path, a directory path, or a
non-text-file path is added all the same; no error is raised and every
other field of the state is unchanged. -/
theorem toggleSelected_adds_unconditionally (s : AppState) (p q : String) :
    p ∈ (toggleSelected p true s).selectedPaths ∧
    (q ∈ (toggleSelected p true s).selectedPaths ↔
      q ∈ s.selectedPaths ∨ q = p) ∧
    (toggleSelected p true s).root = s.root ∧
    (toggleSelected p true s).fileContents = s.fileContents ∧
    (toggleSelected p true s).expandedNodes = s.expandedNodes ∧
    (toggleSelected p true s).stats = s.stats := by
  refine ⟨?_, ?_, rfl, rfl, rfl, rfl⟩
  · show p ∈ spAdd s.selectedPaths p
    rw [mem_spAdd]
    exact Or.inr rfl
  · show q ∈ spAdd s.selectedPaths p ↔ _
    exact mem_spAdd _ _ _

/-- A state with an empty selection whose tree does not contain the path
`"ghost"`. -/
def ghostState : AppState :=
  { root := some (Node.dir "r" "r" [Node.file "a" "r/a" 1 true]),
    selectedPaths := [],
    fileContents := [],
    expandedNodes := [],
    stats := ⟨0, 0⟩ }

/-- **C6 (counterexample).** `toggleSelected("ghost", true)` on a state
whose tree has no node `"ghost"` is NOT a no-op: the resulting
`selectedPaths` contains `"ghost"` although the previous one did not,
refuting the claimed selection-equality for ineligible paths. -/
theorem toggleSelected_ghost_not_noop :
    resolvesToEligibleFile ghostState.root "ghost" = false ∧
    (toggleSelected "ghost" true ghostState).selectedPaths = ["ghost"] ∧
    "ghost" ∉ ghostState.selectedPaths := by
  decide

mutual
/-- `hasSelectedDescendant(node, selectedPaths)` (app.js lines 782-787):
a node with no children has none; otherwise some child is selected or
itself has a selected descendant. -/
def hasSelectedDescendant (sel : List String) : Node → Bool
  | Node.file _ _ _ _ => false
  | Node.dir _ _ cs => anySelectedIn sel cs

/-- The `children.some(...)` disjunction of `hasSelectedDescendant`. -/
def anySelectedIn (sel : List String) : List Node → Bool
  | [] => false
  | c :: cs =>
      (decide (c.path ∈ sel) || hasSelectedDescendant sel c) ||
        anySelectedIn sel cs
end

/-- The visibility test of `generateAsciiTree` (app.js lines 752-756 and
763-765): a node is kept when it is itself selected or has a selected
descendant. -/
def selVisible (sel : List String) (n : Node) : Bool :=
  decide (n.path ∈ sel) || hasSelectedDescendant sel n

/-- `sizeOf` of a filtered list never exceeds that of the list
(termination measure for the branch generator below). -/
theorem sizeOf_filter_le (p : Node → Bool) (l : List Node) :
    sizeOf (l.filter p) ≤ sizeOf l := by
  induction l with
  | nil => simp
  | cons c cs ih =>
      rw [List.filter_cons]
      split
      · simp only [List.cons.sizeOf_spec]
        omega
      · simp only [List.cons.sizeOf_spec]
        omega

mutual
/-- `generateBranch(node, prefix, isLast)` inside `generateAsciiTree`
(app.js lines 750-777), instrumented to keep, next to each emitted line,
the path of the node the line renders: a node that is neither selected
nor has a selected descendant contributes nothing; otherwise its line
`prefix + connector + name + "\n"` is followed by the lines of its
visible children. The output string of the source is the concatenation
of the second components. -/
def generateBranch (sel : List String) :
    Node → String → Bool → List (String × String)
  | Node.file nm p sz t, pre, isLast =>
      if selVisible sel (Node.file nm p sz t) then
        [(p, pre ++ (if isLast then "└── " else "├── ") ++ nm ++ "\n")]
      else []
  | Node.dir nm p cs, pre, isLast =>
      if selVisible sel (Node.dir nm p cs) then
        (p, pre ++ (if isLast then "└── " else "├── ") ++ nm ++ "\n") ::
          genVisibleChildren sel (cs.filter (selVisible sel))
            (pre ++ (if isLast then "    " else "│   "))
      else []
termination_by n _ _ => sizeOf n
decreasing_by
  have h := sizeOf_filter_le (selVisible sel) cs
  simp only [Node.dir.sizeOf_spec]
  omega

/-- The `visibleChildren.forEach` loop of `generateBranch`: each child is
rendered with `isLast` exactly when it is the last visible child. -/
def genVisibleChildren (sel : List String) :
    List Node → String → List (String × String)
  | [], _ => []
  | [c], pre => generateBranch sel c pre true
  | c :: c2 :: cs, pre =>
      generateBranch sel c pre false ++ genVisibleChildren sel (c2 :: cs) pre
termination_by l _ => sizeOf l
decreasing_by
  all_goals simp only [List.cons.sizeOf_spec, List.nil.sizeOf_spec]
  all_goals omega
end

/-- `generateAsciiTree` (app.js lines 746-780): the empty string when no
root is present, otherwise the concatenated lines of
`generateBranch(root, '', true)`. -/
def generateAsciiTree (sel : List String) (root : Option Node) : String :=
  match root with
  | none => ""
  | some r => String.join ((generateBranch sel r "" true).map Prod.snd)

mutual
/-- Preorder enumeration of all nodes of a subtree. -/
def subtreeNodes : Node → List Node
  | Node.file nm p sz t => [Node.file nm p sz t]
  | Node.dir nm p cs => Node.dir nm p cs :: subtreeNodesList cs

/-- Preorder enumeration over a child list. -/
def subtreeNodesList : List Node → List Node
  | [] => []
  | c :: cs => subtreeNodes c ++ subtreeNodesList cs
end

/-- A child list has no selected-or-selected-descendant member iff every
child is invisible. -/
theorem anySelectedIn_eq_false_iff (sel : List String) (l : List Node) :
    anySelectedIn sel l = false ↔ ∀ c ∈ l, selVisible sel c = false := by
  induction l with
  | nil => simp [anySelectedIn]
  | cons c cs ih =>
      simp only [anySelectedIn, Bool.or_eq_false_iff, ih, List.mem_cons]
      constructor
      · rintro ⟨h1, h2⟩ d (rfl | hd)
        · exact Bool.or_eq_false_iff.mpr h1
        · exact h2 d hd
      · intro h
        refine ⟨Bool.or_eq_false_iff.mp (h c (Or.inl rfl)), ?_⟩
        exact fun d hd => h d (Or.inr hd)

/-- Membership in the preorder enumeration of a child list. -/
theorem mem_subtreeNodesList (l : List Node) (m : Node) :
    m ∈ subtreeNodesList l ↔ ∃ c ∈ l, m ∈ subtreeNodes c := by
  induction l with
  | nil => simp [subtreeNodesList]
  | cons c cs ih =>
      simp only [subtreeNodesList, List.mem_append, ih, List.mem_cons]
      constructor
      · rintro (h | ⟨d, hd, hm⟩)
        · exact ⟨c, Or.inl rfl, h⟩
        · exact ⟨d, Or.inr hd, hm⟩
      · rintro ⟨d, (rfl | hd), hm⟩
        · exact Or.inl hm
        · exact Or.inr ⟨d, hd, hm⟩

/-- Invisibility is hereditary: a node that is neither selected nor has a
selected descendant has no visible node anywhere in its subtree. -/
theorem selVisible_false_subtree (sel : List String) (n : Node)
    (h : selVisible sel n = false) :
    ∀ m ∈ subtreeNodes n, selVisible sel m = false := by
  induction n using node_strong_ind with
  | hfile nm p sz t =>
      intro m hm
      simp only [subtreeNodes, List.mem_singleton] at hm
      subst hm
      exact h
  | hdir nm p cs ih =>
      intro m hm
      simp only [subtreeNodes, List.mem_cons] at hm
      rcases hm with rfl | hm
      · exact h
      · have hchildren : ∀ c ∈ cs, selVisible sel c = false := by
          have h2 : anySelectedIn sel cs = false := by
            have := Bool.or_eq_false_iff.mp h
            exact this.2
          exact (anySelectedIn_eq_false_iff sel cs).mp h2
        rcases (mem_subtreeNodesList cs m).mp hm with ⟨c, hc, hmc⟩
        exact ih c hc (hchildren c hc) m hmc

/-- The subtree of an invisible node contributes nothing after
filtering by visibility. -/
theorem subtree_filter_nil (sel : List String) (c : Node)
    (h : selVisible sel c = false) :
    (subtreeNodes c).filter (selVisible sel) = [] := by
  refine List.filter_eq_nil_iff.mpr ?_
  intro m hm
  rw [selVisible_false_subtree sel c h m hm]
  simp

/-- The subtrees of an all-invisible child list contribute nothing
after filtering by visibility. -/
theorem subtreeList_filter_nil (sel : List String) (l : List Node)
    (h : ∀ c ∈ l, selVisible sel c = false) :
    (subtreeNodesList l).filter (selVisible sel) = [] := by
  refine List.filter_eq_nil_iff.mpr ?_
  intro m hm
  rcases (mem_subtreeNodesList l m).mp hm with ⟨c, hc, hmc⟩
  rw [selVisible_false_subtree sel c (h c hc) m hmc]
  simp

/-- Peeling one child off the visible-children renderer: the paths it
emits are the head child's subtree paths followed by the rest, no matter
which connector (`isLast`) each child receives. -/
theorem genVisibleChildren_cons_paths (sel : List String) (c : Node)
    (rest : List Node) (pre : String)
    (hc : ∀ pre2 il, (generateBranch sel c pre2 il).map Prod.fst =
      ((subtreeNodes c).filter (selVisible sel)).map Node.path) :
    (genVisibleChildren sel (c :: rest) pre).map Prod.fst =
      ((subtreeNodes c).filter (selVisible sel)).map Node.path ++
        (genVisibleChildren sel rest pre).map Prod.fst := by
  cases rest with
  | nil => simp [genVisibleChildren, hc]
  | cons c2 cs => simp [genVisibleChildren, hc]

/-- The visible-children renderer on a filtered child list emits exactly
the visible nodes of the children's subtrees, in preorder. -/
theorem genVisibleChildren_paths (sel : List String) (l : List Node)
    (ih : ∀ c ∈ l, ∀ pre il,
      (generateBranch sel c pre il).map Prod.fst =
        ((subtreeNodes c).filter (selVisible sel)).map Node.path) :
    ∀ pre, (genVisibleChildren sel (l.filter (selVisible sel)) pre).map
        Prod.fst =
      ((subtreeNodesList l).filter (selVisible sel)).map Node.path := by
  induction l with
  | nil =>
      intro pre
      simp [subtreeNodesList, genVisibleChildren]
  | cons c cs ihl =>
      intro pre
      have ihc := ih c (by simp)
      have ihcs := ihl (fun d hd => ih d (by simp [hd]))
      rw [List.filter_cons]
      by_cases hv : selVisible sel c = true
      · rw [if_pos hv, genVisibleChildren_cons_paths sel c _ pre ihc, ihcs pre]
        simp only [subtreeNodesList, List.filter_append, List.map_append]
      · have hv' : selVisible sel c = false := by
          revert hv
          cases selVisible sel c <;> simp
        rw [if_neg hv, ihcs pre]
        simp only [subtreeNodesList, List.filter_append, List.map_append,
          subtree_filter_nil sel c hv', List.map_nil, List.nil_append]

/-- The branch generator emits exactly the visible nodes of the subtree,
in preorder, independently of the drawing arguments. -/
theorem generateBranch_paths (sel : List String) (n : Node) :
    ∀ pre il, (generateBranch sel n pre il).map Prod.fst =
      ((subtreeNodes n).filter (selVisible sel)).map Node.path := by
  induction n using node_strong_ind with
  | hfile nm p sz t =>
      intro pre il
      by_cases hv : selVisible sel (Node.file nm p sz t) = true
      · simp [generateBranch, subtreeNodes, hv, List.filter_cons, Node.path]
      · have hv' : selVisible sel (Node.file nm p sz t) = false := by
          revert hv
          cases selVisible sel (Node.file nm p sz t) <;> simp
        simp [generateBranch, subtreeNodes, hv', List.filter_cons]
  | hdir nm p cs ih =>
      intro pre il
      by_cases hv : selVisible sel (Node.dir nm p cs) = true
      · have hrest := genVisibleChildren_paths sel cs ih
          (pre ++ (if il then "    " else "│   "))
        simp only [generateBranch, hv, if_true, List.map_cons, hrest,
          subtreeNodes, List.filter_cons, Node.path]
      · have hv' : selVisible sel (Node.dir nm p cs) = false := by
          revert hv
          cases selVisible sel (Node.dir nm p cs) <;> simp
        have hkids : ∀ c ∈ cs, selVisible sel c = false := by
          have h2 : anySelectedIn sel cs = false :=
            (Bool.or_eq_false_iff.mp hv').2
          exact (anySelectedIn_eq_false_iff sel cs).mp h2
        simp only [generateBranch, hv', Bool.false_eq_true, if_false,
          subtreeNodes, List.filter_cons, hv',
          subtreeList_filter_nil sel cs hkids, List.map_nil]

/-- **C5 (confirmed).** The compiled ASCII tree contains exactly the
nodes that are themselves selected or have at least one selected
descendant, in display preorder: the paths attached to the emitted lines
are precisely the preorder list of the tree's nodes filtered by that
visibility test, so every directory (the root included) with no selected
node beneath it and not itself selected is entirely absent; the rendered
string is the concatenation of the emitted lines. -/
theorem asciiTree_contains_exactly_visible (sel : List String) (root : Node) :
    (generateBranch sel root "" true).map Prod.fst =
      ((subtreeNodes root).filter (selVisible sel)).map Node.path ∧
    generateAsciiTree sel (some root) =
      String.join ((generateBranch sel root "" true).map Prod.snd) :=
  ⟨generateBranch_paths sel root "" true, rfl⟩

/-- One record of the flattened file list handed to the tree builder:
its `webkitRelativePath` and `size`, with the classifier's verdict for
that path (`fileTypeMap.get(file.webkitRelativePath)`) carried
alongside. -/
structure FileRec where
  webkitRelativePath : String
  size : Nat
  isText : Bool

/-- The `children.find(c => c.name === part && c.isDir)` step of
`buildFileTree`, as a functional update of the first matching directory
child. -/
def mapFirstDir (seg : String) (f : Node → Node) : List Node → List Node
  | [] => []
  | c :: cs =>
      if c.name = seg ∧ c.isDir = true then f c :: cs
      else c :: mapFirstDir seg f cs

/-- Whether some child is a directory named `seg` (the `find` hit
test). -/
def hasDirChild (seg : String) (cs : List Node) : Bool :=
  cs.any (fun c => c.name == seg && c.isDir)

/-- The inner `parts.forEach` walk of `buildFileTree` (main.js lines
194-224, app.js lines 385-417) for one record: the first segment was
consumed by the caller; at the terminal segment a File child is
appended, at an intermediate segment the walk descends into the matching
directory child, creating it first when missing. `pathSoFar` is the
slash-join of the segments consumed so far. A file node in descent
position cannot occur on trees the builder creates and is returned
unchanged. -/
def insertRecord (sz : Nat) (tf : Bool) :
    List String → String → Node → Node
  | [], _, node => node
  | [last], pathSoFar, node =>
      match node with
      | Node.dir nm p cs =>
          Node.dir nm p
            (cs ++ [Node.file last (pathSoFar ++ "/" ++ last) sz tf])
      | other => other
  | seg :: seg2 :: rest, pathSoFar, node =>
      match node with
      | Node.dir nm p cs =>
          if hasDirChild seg cs then
            Node.dir nm p (mapFirstDir seg
              (insertRecord sz tf (seg2 :: rest) (pathSoFar ++ "/" ++ seg)) cs)
          else
            Node.dir nm p (cs ++
              [insertRecord sz tf (seg2 :: rest) (pathSoFar ++ "/" ++ seg)
                (Node.dir seg (pathSoFar ++ "/" ++ seg) [])])
      | other => other
termination_by l _ _ => l.length

/-- `buildFileTree(files, fileTypeMap)` (main.js lines 184-226): `null`
on an empty list — there is no thrown error of any kind — otherwise a
synthetic root directory named after the first record's first path
segment, into which every record is inserted segment by segment. (The
app.js lines 374-420 variant is the same walk without the empty-list
guard; its caller returns before invoking it on an empty list, app.js
line 340.) -/
def buildFileTree (files : List FileRec) : Option Node :=
  match files with
  | [] => none
  | f :: _ =>
      let basePath := (f.webkitRelativePath.splitOn "/").headD ""
      some (files.foldl
        (fun acc file =>
          match file.webkitRelativePath.splitOn "/" with
          | [] => acc
          | p0 :: rest => insertRecord file.size file.isText rest p0 acc)
        (Node.dir basePath basePath []))

/-- **C7 (counterexample).** On the empty record list the builder
returns `null` (modeled `none`) — an ordinary return value, not an
`EmptyInputError`; no error type of that name exists in the code. -/
theorem buildFileTree_empty_returns_null : buildFileTree [] = none := rfl

/-- **C7 (amended).** The tree builder never fails: on the empty record
list it returns `null` (no `EmptyInputError` is raised — the name does
not occur in the code — and callers skip the import entirely on empty
input, leaving the state unchanged), and on every non-empty record list
it returns a root node. -/
theorem buildFileTree_total (files : List FileRec) (h : files ≠ []) :
    buildFileTree files = none ↔ files = [] := by
  cases files with
  | nil => exact absurd rfl h
  | cons f fs => simp [buildFileTree]

/-- **C7 (witness).** The builder applied to a one-record list returns a
root (is not `none`), via the amended theorem. -/
theorem buildFileTree_total_witness :
    buildFileTree [⟨"r/a", 1, true⟩] = none ↔
      ([⟨"r/a", 1, true⟩] : List FileRec) = [] :=
  buildFileTree_total [⟨"r/a", 1, true⟩] (by simp)

/-- The serialized projection written by `saveState` (app.js lines
57-64): the spread of the whole state with `selectedPaths` and
`expandedNodes` turned into arrays by `Array.from` — the identity on the
insertion-ordered list model. `JSON.stringify` followed by `JSON.parse`
is the identity on these plain values (strings, numbers, booleans,
arrays, plain objects), so serialization keeps the projection itself. -/
structure SerializedState where
  root : Option Node
  selectedPaths : List String
  fileContents : List (String × String)
  expandedNodes : List String
  stats : Stats

/-- `saveState(state)` (app.js lines 57-64). -/
def saveState (s : AppState) : SerializedState :=
  { root := s.root,
    selectedPaths := s.selectedPaths,
    fileContents := s.fileContents,
    expandedNodes := s.expandedNodes,
    stats := s.stats }

/-- `loadState()` on a present projection (app.js lines 66-76): the
parsed object with `selectedPaths` and `expandedNodes` rebuilt by
`new Set(...)`. -/
def loadState (j : SerializedState) : AppState :=
  { root := j.root,
    selectedPaths := jsSetOfList j.selectedPaths,
    fileContents := j.fileContents,
    expandedNodes := jsSetOfList j.expandedNodes,
    stats := j.stats }

/-- `new Set(array)` preserves membership. -/
theorem mem_jsSetOfList (l : List String) (p : String) :
    p ∈ jsSetOfList l ↔ p ∈ l := by
  unfold jsSetOfList
  rw [mem_foldl_spAdd]
  simp

/-- **C8 (confirmed).** Saving the persistence projection and loading it
back reproduces the same `root` tree, a `selectedPaths` set equal as a
set to the original, an `expandedPaths` set equal as a set to the
original, and the same `stats` (file contents are carried by the same
projection here; the claim does not require them to survive). -/
theorem saveState_loadState_roundtrip (s : AppState) (p : String) :
    (loadState (saveState s)).root = s.root ∧
    (p ∈ (loadState (saveState s)).selectedPaths ↔ p ∈ s.selectedPaths) ∧
    (p ∈ (loadState (saveState s)).expandedNodes ↔ p ∈ s.expandedNodes) ∧
    (loadState (saveState s)).stats = s.stats :=
  ⟨rfl, mem_jsSetOfList _ _, mem_jsSetOfList _ _, rfl⟩

/-- The `<document>` emission loop of `generateSelectedContent` (app.js
lines 736-741; same loop in main.js lines 258-263), keeping next to each
emitted block the path it documents: one block per selected path whose
content is truthy — present and non-empty, since `if (text)` rejects
both a missing entry and the empty string. -/
def documentBlocks (fileContents : List (String × String))
    (sel : List String) : List (String × String) :=
  sel.filterMap (fun p =>
    match fileContents.lookup p with
    | some t =>
        if t ≠ "" then
          some (p, "<document path=\"" ++ p ++ "\">\n" ++ t ++ "\n</document>")
        else none
    | none => none)

/-- `generateSelectedContent` (app.js lines 729-744): the empty string
without a root, otherwise the folder-structure block followed by the
document blocks, joined by blank lines. -/
def generateSelectedContent (s : AppState) : String :=
  match s.root with
  | none => ""
  | some _ =>
      String.intercalate "\n\n"
        (("<folder-structure>\n" ++ generateAsciiTree s.selectedPaths s.root ++
            "\n</folder-structure>") ::
          (documentBlocks s.fileContents s.selectedPaths).map Prod.snd)

/-- Dropping a path whose measured length is zero does not change the
summed content length. -/
theorem sum_map_filter_ne (g : String → Nat) (p : String) (hg : g p = 0) :
    ∀ l : List String,
      (l.map g).sum = ((l.filter (fun q => q ≠ p)).map g).sum := by
  intro l
  induction l with
  | nil => simp
  | cons a l ih =>
      by_cases hap : a = p
      · subst hap
        simp [List.filter_cons, hg, ih]
      · simp [List.filter_cons, hap, ih]

/-- **C9 (confirmed).** A selected path whose `fileContents` entry is
the empty string produces no `<document>` block — emission tests the
content's truthiness, so the empty string is skipped exactly like a
missing entry — and contributes zero to the token estimate: the estimate
is unchanged if the path is removed from the selection. -/
theorem emptyContent_emits_nothing (s : AppState) (p : String)
    (_hsel : p ∈ s.selectedPaths)
    (hc : s.fileContents.lookup p = some "") :
    p ∉ (documentBlocks s.fileContents s.selectedPaths).map Prod.fst ∧
    calculateTokens s.fileContents s.selectedPaths =
      calculateTokens s.fileContents
        (s.selectedPaths.filter (fun q => q ≠ p)) := by
  constructor
  · intro hmem
    rw [List.mem_map] at hmem
    obtain ⟨⟨q, blk⟩, hin, hfst⟩ := hmem
    rw [documentBlocks, List.mem_filterMap] at hin
    obtain ⟨r, hr, hsome⟩ := hin
    cases hlr : s.fileContents.lookup r with
    | none => rw [hlr] at hsome; simp at hsome
    | some t =>
        rw [hlr] at hsome
        by_cases ht : t = ""
        · subst ht
          simp at hsome
        · simp [ht] at hsome
          obtain ⟨hrq, hblk⟩ := hsome
          have hqp : q = p := hfst
          rw [hrq, hqp, hc] at hlr
          injection hlr with h2
          exact ht h2.symm
  · unfold calculateTokens
    rw [calculateTokens_chars, calculateTokens_chars]
    have hg : (fun q => ((s.fileContents.lookup q).getD "").length) p = 0 := by
      simp [hc]
    rw [sum_map_filter_ne _ p hg s.selectedPaths]

/-- A state with one selected path whose content entry is the empty
string. -/
def emptyContentState : AppState :=
  { root := some (Node.dir "r" "r" [Node.file "a" "r/a" 1 true]),
    selectedPaths := ["r/a"],
    fileContents := [("r/a", "")],
    expandedNodes := [],
    stats := ⟨0, 0⟩ }

/-- **C9 (witness).** The empty-content rule at a concrete state. -/
theorem emptyContent_emits_nothing_witness :
    "r/a" ∉ (documentBlocks emptyContentState.fileContents
        emptyContentState.selectedPaths).map Prod.fst ∧
    calculateTokens emptyContentState.fileContents
        emptyContentState.selectedPaths =
      calculateTokens emptyContentState.fileContents
        (emptyContentState.selectedPaths.filter (fun q => q ≠ "r/a")) :=
  emptyContent_emits_nothing emptyContentState "r/a" (by decide) (by decide)

/-- A stored state reference: `structuredClone` always allocates a fresh
object, modeled by pairing the state value with an allocation id; the
clone carries a strictly larger id. JS reference equality (the
`nextState !== state` guard) between the previous state and the frozen
draft is id equality. -/
structure StoreState where
  refId : Nat
  val : AppState

/-- `structuredClone(state)` inside `dispatch`: same value, fresh
reference. -/
def structuredCloneSt (st : StoreState) : StoreState :=
  { refId := st.refId + 1, val := st.val }

/-- `Store.dispatch(action)` (store.js lines 73-84, app.js lines 31-44):
clones the state into a draft, applies the action to the draft, freezes
it, and — only when the result is reference-unequal to the previous
state — replaces the stored state, then notifies all subscribers
synchronously and persists. The returned flag records whether the
replace-notify-persist branch ran. -/
def dispatch (st : StoreState) (action : AppState → AppState) :
    StoreState × Bool :=
  let draft := structuredCloneSt st
  let nextState : StoreState := { refId := draft.refId, val := action draft.val }
  if nextState.refId = st.refId then (st, false) else (nextState, true)

/-- **C10 (confirmed).** For every dispatched action — including one
whose draft is field-for-field equal to the previous state — the store
replaces the stored state with a new object and notifies subscribers and
persists: the reference-inequality guard never suppresses the
notification, because the draft is a fresh structured clone and is never
reference-equal to the previous state. -/
theorem dispatch_always_notifies (st : StoreState)
    (action : AppState → AppState) :
    (dispatch st action).2 = true ∧
    (dispatch st action).1.val = action st.val ∧
    (dispatch st action).1.refId ≠ st.refId := by
  unfold dispatch structuredCloneSt
  simp
